import Mathlib

/-!
Verification of the stratified mini-batch trainer of MNIST_Digits_TensorFlow.py.

The file embeds, as executable Lean definitions:
* the stratified k-fold partition used as `skfold` in the source (the library
  routine itself is not part of the repository; it is modelled from the spec's
  §9 reimplementation note: bucket indices by label, shuffle each bucket with
  the seeded random source, round-robin-assign across the batch count);
* the per-epoch training loop (`for fold, (dummy_idx, batch_idx) in
  enumerate(skfold.split(...))` with `avg_cost += c / total_batch`);
* the reporting cadence (`if epoch % display_step == 0` plus the unconditional
  post-loop report);
* the one-hot label encoding (`LabelBinarizer` on classes 0..9) and argmax;
* the sparsity-preserving feature scaling (`MaxAbsScaler`);
* the accuracy metric `accr = reduce_mean(equal(argmax z_out, argmax y_true))`
  and the session-op trace of the trainer, separating train ops (which update
  parameters) from metric evaluations (which do not).

Machine floats of the source are embedded as exact rationals; integer indices
as naturals.
-/

/-- A linear congruential step, the seeded random source of the model of the
stratified shuffle (the source delegates its randomness to the library RNG
seeded with `random_state=428`). -/
def lcg (s : ℕ) : ℕ := (1103515245 * s + 12345) % 2147483648

/-- Remove the element at position `j` from a list, returning it and the rest.
On an empty list returns the default `0` (never reached when `j` is in range). -/
def extractAt : ℕ → List ℕ → ℕ × List ℕ
  | _, [] => (0, [])
  | 0, a :: l => (a, l)
  | n + 1, a :: l =>
    let p := extractAt n l
    (p.1, a :: p.2)

/-- Fuel-indexed Fisher–Yates-style shuffle driven by `lcg`. -/
def shuffleAux : ℕ → ℕ → List ℕ → List ℕ
  | _, 0, _ => []
  | s, fuel + 1, l =>
    let p := extractAt (s % l.length) l
    p.1 :: shuffleAux (lcg s) fuel p.2

/-- Modelled from the spec: the seeded shuffle of one label bucket used by the
stratified partition (the library shuffling code is not in the repository;
spec §9: "shuffle each bucket independently using the seeded random source"). -/
def shuffle (s : ℕ) (l : List ℕ) : List ℕ := shuffleAux s l.length l

/-- The indices of the samples carrying class label `c`
(spec §9: "bucket indices by label"). -/
def classIndices (labels : List ℕ) (c : ℕ) : List ℕ :=
  (List.range labels.length).filter (fun i => labels.getD i 0 == c)

/-- The bucket of class `c`, shuffled with a seed derived from the run seed
and the class. -/
def shuffledBucket (seed : ℕ) (labels : List ℕ) (c : ℕ) : List ℕ :=
  shuffle (lcg (seed + c)) (classIndices labels c)

/-- The fold a sample index is assigned to: its rank inside its shuffled class
bucket, round-robin across the `k` folds (spec §9: "round-robin-assign bucket
elements across the target batch count"). -/
def foldOf (seed : ℕ) (labels : List ℕ) (k : ℕ) (i : ℕ) : ℕ :=
  ((shuffledBucket seed labels (labels.getD i 0)).indexOf i) % k

/-- The sorted index list of fold `f`, as the library's `split` yields its test
index arrays (a boolean mask applied to `arange(n)`). -/
def foldIndices (seed : ℕ) (labels : List ℕ) (k f : ℕ) : List ℕ :=
  (List.range labels.length).filter (fun i => foldOf seed labels k i == f)

/-- Modelled from the spec: the stratified partition of the index set into `k`
folds, the model of `skfold.split(x_training_scaled, y_training)` of source
line 485 (the library `StratifiedKFold` is not in the repository; spec §9
describes this reimplementation). The test fold of each of the `k` splits is
the mini-batch of the training loop. -/
def skfoldSplit (seed : ℕ) (labels : List ℕ) (k : ℕ) : List (List ℕ) :=
  (List.range k).map (foldIndices seed labels k)

/-- The partitions the training loop consumes, epoch by epoch: the source
constructs `skfold` once, with `random_state=428` fixed, and calls
`skfold.split` with the same arguments at every epoch (source lines 455, 474,
485), so each epoch's partition is the same function of the seed, the labels
and the split count. -/
def epochPartitions (seed k nEpoch : ℕ) (labels : List ℕ) : List (List (List ℕ)) :=
  (List.range nEpoch).map (fun _ => skfoldSplit seed labels k)

theorem mem_foldIndices {seed k f i : ℕ} {labels : List ℕ} :
    i ∈ foldIndices seed labels k f ↔ i < labels.length ∧ foldOf seed labels k i = f := by
  simp [foldIndices, List.mem_filter, List.mem_range]

theorem mem_skfoldSplit {seed k : ℕ} {labels : List ℕ} {b : List ℕ} :
    b ∈ skfoldSplit seed labels k ↔ ∃ f < k, b = foldIndices seed labels k f := by
  simp [skfoldSplit, List.mem_map, List.mem_range, eq_comm]

/-- C1: in every epoch, the batch index sets of the stratified partition are
pairwise disjoint, their union is the full training index set, and each
training sample lies in exactly one batch. -/
theorem skfold_partition_disjoint_exhaustive (seed k nEpoch : ℕ) (labels : List ℕ)
    (hk : 0 < k) (P : List (List ℕ)) (hP : P ∈ epochPartitions seed k nEpoch labels) :
    (∀ f1 f2, f1 ≠ f2 → ∀ i, i ∈ foldIndices seed labels k f1 →
      i ∉ foldIndices seed labels k f2)
    ∧ (∀ i, i ∈ P.flatten ↔ i < labels.length)
    ∧ (∀ i, i < labels.length → P.countP (fun b => i ∈ b) = 1) := by
  have hPdef : P = skfoldSplit seed labels k := by
    simp only [epochPartitions, List.mem_map, List.mem_range] at hP
    obtain ⟨e, -, he⟩ := hP
    exact he.symm
  subst hPdef
  refine ⟨?_, ?_, ?_⟩
  · intro f1 f2 hne i h1 h2
    rw [mem_foldIndices] at h1 h2
    exact hne (h1.2 ▸ h2.2 ▸ rfl)
  · intro i
    constructor
    · intro hi
      rw [List.mem_flatten] at hi
      obtain ⟨b, hb, hib⟩ := hi
      rw [mem_skfoldSplit] at hb
      obtain ⟨f, -, rfl⟩ := hb
      exact (mem_foldIndices.mp hib).1
    · intro hi
      rw [List.mem_flatten]
      refine ⟨foldIndices seed labels k (foldOf seed labels k i), ?_, ?_⟩
      · rw [mem_skfoldSplit]
        refine ⟨foldOf seed labels k i, ?_, rfl⟩
        calc foldOf seed labels k i
            = ((shuffledBucket seed labels (labels.getD i 0)).indexOf i) % k := rfl
          _ < k := Nat.mod_lt _ hk
      · exact mem_foldIndices.mpr ⟨hi, rfl⟩
  · intro i hi
    have hmem : foldOf seed labels k i < k := by
      calc foldOf seed labels k i
          = ((shuffledBucket seed labels (labels.getD i 0)).indexOf i) % k := rfl
        _ < k := Nat.mod_lt _ hk
    have hstep : (skfoldSplit seed labels k).countP (fun b => i ∈ b)
        = (List.range k).count (foldOf seed labels k i) := by
      rw [skfoldSplit, List.countP_map, List.count]
      refine List.countP_congr ?_
      intro f _
      simp only [Function.comp, decide_eq_true_eq, beq_iff_eq]
      rw [mem_foldIndices]
      exact ⟨fun h => h.2.symm, fun h => ⟨hi, h.symm⟩⟩
    rw [hstep]
    exact List.count_eq_one_of_mem (List.nodup_range k) (List.mem_range.mpr hmem)

/-- The smallest number of members any class of the label vector has. -/
def minClassCount (labels : List ℕ) : ℕ :=
  (labels.dedup.map (fun c => labels.count c)).foldr min labels.length

/-- Modelled from the spec: `skfold.split` including the library's
configuration validation, which the repository relies on but does not contain
(spec §7: "configuration errors (batch count larger than example count, or too
few examples of some class to stratify) — detected before training starts,
fatal").  `StratifiedKFold` itself also requires at least two splits. -/
def skSplit (seed : ℕ) (labels : List ℕ) (k : ℕ) : Except String (List (List ℕ)) :=
  if k < 2 then .error "n_splits must be at least 2"
  else if labels.length < k then .error "n_splits greater than the number of samples"
  else if minClassCount labels < k then .error "some class has fewer members than n_splits"
  else .ok (skfoldSplit seed labels k)

/-- `total_batch = int(n_samp / n_batch)` of source lines 444-446: the batch
count is the floor of the example count over the target batch size. -/
def totalBatch (nSamp nBatchSize : ℕ) : ℕ := nSamp / nBatchSize

/-- The inner loop of one epoch (source lines 485-494): for each fold of the
partition, invoke the externally supplied train step `ts` on the batch
indices, obtaining new parameters and the scalar batch loss `c`, and
accumulate `c / total_batch` into the running cost `avg_cost`.  Returns the
final parameters, the running cost, and the list of per-batch losses. -/
def runBatches {α : Type} (ts : α → List ℕ → α × ℚ) (k : ℕ) :
    α → List (List ℕ) → α × ℚ × List ℚ
  | p, [] => (p, 0, [])
  | p, b :: bs =>
    let step := ts p b
    let rest := runBatches ts k step.1 bs
    (rest.1, step.2 / (k : ℚ) + rest.2.1, step.2 :: rest.2.2)

/-- The epoch loop (source lines 474-494): each epoch calls `skfold.split`
anew with the same arguments and runs one train step per fold.  Returns the
outcome and the total number of train-step invocations performed. -/
def runEpochs {α : Type} (ts : α → List ℕ → α × ℚ) (seed k : ℕ) (labels : List ℕ) :
    α → ℕ → Except String α × ℕ
  | p, 0 => (.ok p, 0)
  | p, n + 1 =>
    match skSplit seed labels k with
    | .error e => (.error e, 0)
    | .ok batches =>
      let run := runBatches ts k p batches
      let rest := runEpochs ts seed k labels run.1 n
      (rest.1, batches.length + rest.2)

/-- Following the spec's words, for comparison with the code's running cost:
the example-count-weighted mean of the per-batch losses, each batch weighted
by its number of examples. -/
def exampleWeightedMeanLoss (batches : List (List ℕ)) (losses : List ℚ) : ℚ :=
  (List.zipWith (fun b c => ((b.length : ℕ) : ℚ) * c) batches losses).sum
    / (batches.map (fun b => ((b.length : ℕ) : ℚ))).sum

theorem runBatches_avg_and_length {α : Type} (ts : α → List ℕ → α × ℚ) (k : ℕ)
    (p : α) (bs : List (List ℕ)) :
    (runBatches ts k p bs).2.1 = (runBatches ts k p bs).2.2.sum / (k : ℚ)
    ∧ (runBatches ts k p bs).2.2.length = bs.length := by
  induction bs generalizing p with
  | nil => simp [runBatches]
  | cons b bs ih =>
    obtain ⟨ih1, ih2⟩ := ih (ts p b).1
    constructor
    · show (ts p b).2 / (k : ℚ) + (runBatches ts k (ts p b).1 bs).2.1 = _
      rw [ih1, div_add_div_same]
      rfl
    · simpa [runBatches] using ih2

theorem weighted_sum_of_const_sizes (m : ℕ) (bs : List (List ℕ)) (cs : List ℚ)
    (hb : ∀ b ∈ bs, b.length = m) (hl : cs.length = bs.length) :
    (List.zipWith (fun b c => ((b.length : ℕ) : ℚ) * c) bs cs).sum
      = (m : ℚ) * cs.sum := by
  induction bs generalizing cs with
  | nil =>
    rw [List.length_nil, List.length_eq_zero] at hl
    subst hl; simp
  | cons b bs ih =>
    cases cs with
    | nil => simp at hl
    | cons c cs =>
      simp only [List.zipWith_cons_cons, List.sum_cons]
      rw [ih cs (fun x hx => hb x (List.mem_cons_of_mem b hx)) (by simpa using hl),
        hb b (List.mem_cons_self b bs), mul_add]

theorem sizes_sum_of_const (m : ℕ) (bs : List (List ℕ)) (hb : ∀ b ∈ bs, b.length = m) :
    (bs.map (fun b => ((b.length : ℕ) : ℚ))).sum = (m : ℚ) * bs.length := by
  induction bs with
  | nil => simp
  | cons b bs ih =>
    simp only [List.map_cons, List.sum_cons, List.length_cons]
    rw [ih (fun x hx => hb x (List.mem_cons_of_mem b hx)), hb b (List.mem_cons_self b bs)]
    push_cast
    ring

/-- C3 (amended): the running cost of an epoch is the unweighted mean of the
per-batch losses, `(sum of losses) / total_batch`; when every batch has the
same example count it moreover coincides with the example-count-weighted mean
of the per-batch losses. -/
theorem avg_cost_is_unweighted_mean {α : Type} (ts : α → List ℕ → α × ℚ)
    (k m : ℕ) (p : α) (bs : List (List ℕ))
    (hk : bs.length = k) (hm : 0 < m) (hb : ∀ b ∈ bs, b.length = m) :
    (runBatches ts k p bs).2.1 = (runBatches ts k p bs).2.2.sum / (k : ℚ)
    ∧ (runBatches ts k p bs).2.1
        = exampleWeightedMeanLoss bs (runBatches ts k p bs).2.2 := by
  obtain ⟨h1, h2⟩ := runBatches_avg_and_length ts k p bs
  refine ⟨h1, ?_⟩
  rw [h1, exampleWeightedMeanLoss, weighted_sum_of_const_sizes m bs _ hb h2,
    sizes_sum_of_const m bs hb, hk]
  have hm0 : (m : ℚ) ≠ 0 := Nat.cast_ne_zero.mpr hm.ne'
  exact (mul_div_mul_left _ _ hm0).symm

/-- A train step whose reported batch loss is the batch's example count; used
to exhibit concrete loss traces. -/
def tsSize : Unit → List ℕ → Unit × ℚ := fun p bt => (p, ((bt.length : ℕ) : ℚ))

/-- C3 counterexample: on 5 samples split into 2 stratified batches (of sizes
3 and 2) with per-batch losses 3 and 2, the running cost is the unweighted
mean 5/2 of the batch losses while the example-count-weighted mean is 13/5, so
the claimed equality fails (by 1/10, not a rounding tolerance). -/
theorem avg_cost_differs_from_weighted_mean :
    (runBatches tsSize 2 () (skfoldSplit 428 [0, 0, 0, 1, 1] 2)).2.1
      ≠ exampleWeightedMeanLoss (skfoldSplit 428 [0, 0, 0, 1, 1] 2)
          (runBatches tsSize 2 () (skfoldSplit 428 [0, 0, 0, 1, 1] 2)).2.2 := by
  have hs : skfoldSplit 428 [0, 0, 0, 1, 1] 2 = [[0, 2, 3], [1, 4]] := by decide
  rw [hs]
  norm_num [runBatches, tsSize, exampleWeightedMeanLoss]

/-- C2 counterexample: a three-epoch run over 5 samples with 2 batches and the
source's fixed seed 428 hands the training loop the identical partition at
every epoch — the per-epoch partitions are all the same, not fresh. -/
theorem epoch_partitions_all_identical :
    epochPartitions 428 2 3 [0, 0, 0, 1, 1]
      = [[[0, 2, 3], [1, 4]], [[0, 2, 3], [1, 4]], [[0, 2, 3], [1, 4]]] := by
  decide

/-- C2 (amended): the source constructs `skfold` once with the fixed
`random_state=428` and calls `split` with the same arguments every epoch, so
the partition is a deterministic replay — any two epochs of one run receive
the same partition. -/
theorem epoch_partitions_replay (seed k nEpoch : ℕ) (labels : List ℕ)
    (P Q : List (List ℕ)) (hP : P ∈ epochPartitions seed k nEpoch labels)
    (hQ : Q ∈ epochPartitions seed k nEpoch labels) : P = Q := by
  simp only [epochPartitions, List.mem_map, List.mem_range] at hP hQ
  obtain ⟨-, -, hP⟩ := hP
  obtain ⟨-, -, hQ⟩ := hQ
  rw [← hP, ← hQ]

/-- C7: the epoch-by-epoch partition trace is a function of the seed, the
label vector and the configuration alone, so two runs agreeing on these
produce identical partitions epoch by epoch. -/
theorem partitions_deterministic (s1 s2 k1 k2 n1 n2 : ℕ) (l1 l2 : List ℕ)
    (hs : s1 = s2) (hk : k1 = k2) (hn : n1 = n2) (hl : l1 = l2) :
    epochPartitions s1 k1 n1 l1 = epochPartitions s2 k2 n2 l2 := by
  rw [hs, hk, hn, hl]

/-- C5: with 4 examples and 10 requested batches, the split's validation
rejects the configuration at the first epoch, the run aborts with the
configuration error, and — whatever the externally supplied train step is —
zero train-step invocations have been performed. -/
theorem fail_fast_on_config_error {α : Type} (ts : α → List ℕ → α × ℚ) (p : α) :
    runEpochs ts 428 10 [0, 1, 2, 3] p 200
      = (.error "n_splits greater than the number of samples", 0) := by
  rfl

theorem runEpochs_count_of_ok {α : Type} (ts : α → List ℕ → α × ℚ)
    (seed k : ℕ) (labels : List ℕ)
    (hok : skSplit seed labels k = .ok (skfoldSplit seed labels k)) :
    ∀ (p : α) (n : ℕ), (runEpochs ts seed k labels p n).2 = n * k := by
  intro p n
  induction n generalizing p with
  | zero => simp [runEpochs]
  | succ n ih =>
    show (match skSplit seed labels k with
      | .error e => ((Except.error e : Except String α), 0)
      | .ok batches =>
        let run := runBatches ts k p batches
        let rest := runEpochs ts seed k labels run.1 n
        (rest.1, batches.length + rest.2)).2 = (n + 1) * k
    rw [hok]
    show (skfoldSplit seed labels k).length
        + (runEpochs ts seed k labels _ n).2 = (n + 1) * k
    rw [ih, skfoldSplit, List.length_map, List.length_range]
    ring

/-- C6: under a valid configuration — at least two batches and every class at
least as populous as the batch count, with
`batch_count = ⌊example_count / target_batch_size⌋` — a run of `epoch_count`
epochs performs exactly `epoch_count * batch_count` train-step invocations
(one per fold of each epoch's partition). -/
theorem train_step_count {α : Type} (ts : α → List ℕ → α × ℚ)
    (seed nBatchSize nEpoch : ℕ) (labels : List ℕ) (p : α)
    (h2 : 2 ≤ totalBatch labels.length nBatchSize)
    (hcls : totalBatch labels.length nBatchSize ≤ minClassCount labels) :
    (runEpochs ts seed (totalBatch labels.length nBatchSize) labels p nEpoch).2
      = nEpoch * totalBatch labels.length nBatchSize := by
  have hkn : totalBatch labels.length nBatchSize ≤ labels.length :=
    Nat.div_le_self _ _
  have hok : skSplit seed labels (totalBatch labels.length nBatchSize)
      = .ok (skfoldSplit seed labels (totalBatch labels.length nBatchSize)) := by
    rw [skSplit, if_neg (by omega), if_neg (by omega), if_neg (by omega)]
  exact runEpochs_count_of_ok ts seed _ labels hok p nEpoch

/-- The report cadence of the training loop: the in-loop report fires at each
epoch whose index satisfies `epoch % display_step == 0` (source line 497), and
one further report is emitted unconditionally after the loop, describing the
state after the final epoch (source lines 505-512).  The list holds, in
order, the epoch each report describes. -/
def reportTrace (nEpoch displayStep : ℕ) : List ℕ :=
  ((List.range nEpoch).filter (fun e => e % displayStep == 0)) ++ [nEpoch - 1]

/-- How many reports a run with the given epoch count and display step emits
for epoch `e`. -/
def reportCount (nEpoch displayStep e : ℕ) : ℕ :=
  (reportTrace nEpoch displayStep).count e

/-- C4 counterexample: with reporting interval 5 and epoch count 11, epoch 10
is reported twice — once in the loop (10 is a multiple of 5) and once by the
unconditional post-loop report — so "reported exactly when the index is a
multiple of the interval or final, with no duplicate report" fails at
epoch 10. -/
theorem report_duplicated_at_final :
    ¬ (∀ e, e < 11 →
        reportCount 11 5 e = if e % 5 = 0 ∨ e = 11 - 1 then 1 else 0) := by
  decide

/-- C4 (amended): each epoch `e` of a run is reported once for `e` being a
multiple of the display step plus once more for being the final epoch; in
particular the final epoch is reported twice, not once, whenever its index is
a multiple of the interval (as with interval 5 and epoch count 11). -/
theorem report_cadence (nEpoch d e : ℕ) (hd : 0 < d) (he : e < nEpoch) :
    reportCount nEpoch d e
      = (if e % d = 0 then 1 else 0) + (if e = nEpoch - 1 then 1 else 0) := by
  rw [reportCount, reportTrace, List.count_append]
  congr 1
  · by_cases h : e % d = 0
    · rw [if_pos h]
      refine List.count_eq_one_of_mem ((List.nodup_range nEpoch).filter _) ?_
      exact List.mem_filter.mpr ⟨List.mem_range.mpr he, by simp [h]⟩
    · rw [if_neg h]
      refine List.count_eq_zero_of_not_mem ?_
      intro hmem
      exact h (by simpa using (List.mem_filter.mp hmem).2)
  · by_cases h : e = nEpoch - 1
    · simp [h]
    · simp [List.count_cons, h]

/-- `np.argmax` / `tf.argmax` along a vector: the index of the first maximal
entry (`argmaxAux rest current index best`). -/
def argmaxAux {β : Type} [LinearOrder β] : List β → β → ℕ → ℕ → ℕ
  | [], _, _, best => best
  | a :: l, m, i, best =>
    if m < a then argmaxAux l a (i + 1) i else argmaxAux l m (i + 1) best

/-- The index of the first maximal entry of a vector. -/
def argmaxIdx {β : Type} [LinearOrder β] : List β → ℕ
  | [] => 0
  | a :: l => argmaxAux l a 1 0

/-- The model parameters of the logistic-regression graph: the weight matrix
`W` (one row per feature) and the bias vector `b`. -/
structure Params where
  W : List (List ℚ)
  b : List ℚ

/-- `z_out = add(matmul(x, W), b)` of source line 370, for one sample row:
entry `j` is the dot product of the features with column `j` of the weights,
plus bias `j`. -/
def zOutRow (p : Params) (xrow : List ℚ) : List ℚ :=
  (List.range p.b.length).map
    (fun j => (List.zipWith (fun v wrow => v * wrow.getD j 0) xrow p.W).sum
      + p.b.getD j 0)

/-- `corr = equal(argmax(z_out, 1), argmax(y_true, 1))` and
`accr = reduce_mean(cast(corr))` of source lines 404-405: the fraction of
samples whose predicted class index equals the true one. -/
def accr (p : Params) (xs ys : List (List ℚ)) : ℚ :=
  (List.zipWith
      (fun xr yr => if argmaxIdx (zOutRow p xr) = argmaxIdx yr then (1 : ℚ) else 0)
      xs ys).sum / (xs.length : ℚ)

/-- One `sess.run` request of the dropout-network training loop: a train op
(`[optimizer, cost]` on a batch, `keep_prob: 0.5`, source line 724) or an
accuracy evaluation (`accr` on the training or validation set, `keep_prob:
1.`, source lines 733-741). -/
inductive SessOp where
  | trainOp (batch : List ℕ) (keepProb : ℚ)
  | evalAccr (onTraining : Bool) (keepProb : ℚ)
deriving DecidableEq

/-- Whether the op is a metric evaluation rather than a train step. -/
def SessOp.isEval : SessOp → Bool
  | .trainOp _ _ => false
  | .evalAccr _ _ => true

/-- The dropout keep probability the op is fed. -/
def SessOp.keep : SessOp → ℚ
  | .trainOp _ kp => kp
  | .evalAccr _ kp => kp

/-- The `sess.run` trace of the dropout training loop (source lines 706-741):
per epoch, one train op per fold with `keep_prob: 0.5`, then — when the epoch
index is on the display cadence — the training- and validation-set accuracy
evaluations with `keep_prob: 1.`; after the loop, the same two evaluations
once more, unconditionally. -/
def trainerOps (seed k nEpoch d : ℕ) (labels : List ℕ) : List SessOp :=
  match skSplit seed labels k with
  | .error _ => []
  | .ok batches =>
    ((List.range nEpoch).map (fun e =>
      batches.map (fun bt => SessOp.trainOp bt (1 / 2))
        ++ (if e % d = 0 then [SessOp.evalAccr true 1, SessOp.evalAccr false 1]
            else []))).flatten
    ++ [SessOp.evalAccr true 1, SessOp.evalAccr false 1]

/-- Executing one session op on the model parameters.  A train op delegates to
the externally supplied train step `ts`, which may update the parameters and
returns the batch loss.  Modelled from the spec on the metric side, whose code
is the external framework's: `evaluate_metric` "performs a forward pass only
... no side effects on parameters" (spec §6), so an evaluation computes `accr`
from the current parameters and passes them through. -/
def applyOp (ts : Params → List ℕ → ℚ → Params × ℚ)
    (xsT ysT xsV ysV : List (List ℚ)) : Params → SessOp → Params × ℚ
  | p, .trainOp bt kp => ts p bt kp
  | p, .evalAccr onTr _ => (p, if onTr then accr p xsT ysT else accr p xsV ysV)

theorem trainerOps_shape (seed k nEpoch d : ℕ) (labels : List ℕ) (op : SessOp)
    (hop : op ∈ trainerOps seed k nEpoch d labels) :
    (∃ bt, op = .trainOp bt (1 / 2))
    ∨ op = .evalAccr true 1 ∨ op = .evalAccr false 1 := by
  rw [trainerOps] at hop
  cases hsk : skSplit seed labels k with
  | error e => rw [hsk] at hop; simp at hop
  | ok batches =>
    rw [hsk] at hop
    rcases List.mem_append.mp hop with h | h
    · rw [List.mem_flatten] at h
      obtain ⟨l, hl, hopl⟩ := h
      simp only [List.mem_map, List.mem_range] at hl
      obtain ⟨e, -, rfl⟩ := hl
      rcases List.mem_append.mp hopl with h | h
      · obtain ⟨bt, -, rfl⟩ := List.mem_map.mp h
        exact Or.inl ⟨bt, rfl⟩
      · by_cases hc : e % d = 0
        · rw [if_pos hc] at h
          simp only [List.mem_cons, List.not_mem_nil, or_false] at h
          rcases h with rfl | rfl
          · exact Or.inr (Or.inl rfl)
          · exact Or.inr (Or.inr rfl)
        · rw [if_neg hc] at h
          simp at h
    · simp only [List.mem_cons, List.not_mem_nil, or_false] at h
      rcases h with rfl | rfl
      · exact Or.inr (Or.inl rfl)
      · exact Or.inr (Or.inr rfl)

/-- C8: every accuracy evaluation the training loop requests is fed the
dropout keep probability forced to its inference value 1, and executing it
returns the model parameters unchanged, whatever the data and the external
train step are; only train ops can update parameters. -/
theorem eval_forward_pass_only (seed k nEpoch d : ℕ) (labels : List ℕ)
    (op : SessOp) (hop : op ∈ trainerOps seed k nEpoch d labels)
    (he : op.isEval = true) :
    op.keep = 1
    ∧ ∀ (ts : Params → List ℕ → ℚ → Params × ℚ)
        (xsT ysT xsV ysV : List (List ℚ)) (p : Params),
        (applyOp ts xsT ysT xsV ysV p op).1 = p := by
  rcases trainerOps_shape seed k nEpoch d labels op hop with ⟨bt, rfl⟩ | rfl | rfl
  · exact absurd he (by simp [SessOp.isEval])
  · exact ⟨rfl, fun ts xsT ysT xsV ysV p => rfl⟩
  · exact ⟨rfl, fun ts xsT ysT xsV ysV p => rfl⟩

/-- Modelled from the spec: `LabelBinarizer.transform` of the library (not in
the repository): the one-hot row of label `y` over the fitted class list, a 1
at the position of `y`'s class and 0 elsewhere — the mapping the source's own
text displays for the digit classes 0-9 around lines 158-189. -/
def lbTransform (classes : List ℕ) (y : ℕ) : List ℕ :=
  classes.map (fun c => if c = y then 1 else 0)

/-- C9: one-hot encoding of the digit labels is a lossless round trip: for
every label below 10, the encoded row over the fitted classes 0-9 has length
10, entries only 0 or 1, exactly one 1, and `argmax` of the row recovers the
label. -/
theorem one_hot_round_trip (y : ℕ) (hy : y < 10) :
    (lbTransform (List.range 10) y).length = 10
    ∧ (∀ v ∈ lbTransform (List.range 10) y, v = 0 ∨ v = 1)
    ∧ (lbTransform (List.range 10) y).count 1 = 1
    ∧ argmaxIdx (lbTransform (List.range 10) y) = y := by
  revert y
  decide

/-- The largest absolute value feature column `j` takes over the fitted
matrix. -/
def colMaxAbs (xs : List (List ℚ)) (j : ℕ) : ℚ :=
  (xs.map (fun row => |row.getD j 0|)).foldr max 0

/-- Modelled from the spec: the per-column scale of the library's
`MaxAbsScaler` (not in the repository): the column's maximum absolute value
over the fitted data, a zero scale being replaced by 1 so that all-zero
columns pass through unchanged. -/
def maxAbsScale (xs : List (List ℚ)) (j : ℕ) : ℚ :=
  if colMaxAbs xs j = 0 then 1 else colMaxAbs xs j

/-- `transform` of the fitted scaler (source lines 241-268): divide each entry
of a sample row by its column's scale. -/
def maxAbsTransform (xs : List (List ℚ)) (row : List ℚ) : List ℚ :=
  (List.range row.length).map (fun j => row.getD j 0 / maxAbsScale xs j)

/-- C10: the feature scaling preserves sparsity: an entry that is zero before
scaling is zero after scaling, for any fitted data and any sample row. -/
theorem scaling_preserves_zeros (xs : List (List ℚ)) (row : List ℚ) (j : ℕ)
    (h : row.getD j 0 = 0) : (maxAbsTransform xs row).getD j 0 = 0 := by
  rcases lt_or_ge j row.length with hj | hj
  · rw [maxAbsTransform, List.getD_eq_getElem?_getD, List.getElem?_map,
      List.getElem?_range hj]
    rw [List.getD_eq_getElem?_getD] at h
    simp [h]
  · rw [maxAbsTransform, List.getD_eq_getElem?_getD, List.getElem?_map]
    rw [List.getElem?_eq_none (by simpa using hj)]
    rfl

/-- Witness for the C1 theorem at a concrete run: 5 samples of classes
[0,0,0,1,1], 2 batches, 1 epoch, seed 428. -/
theorem skfold_partition_witness :
    (0 < 2
      ∧ [[0, 2, 3], [1, 4]] ∈ epochPartitions 428 2 1 [0, 0, 0, 1, 1])
    ∧ ((∀ f1 f2, f1 ≠ f2 → ∀ i, i ∈ foldIndices 428 [0, 0, 0, 1, 1] 2 f1 →
          i ∉ foldIndices 428 [0, 0, 0, 1, 1] 2 f2)
      ∧ (∀ i, i ∈ ([[0, 2, 3], [1, 4]] : List (List ℕ)).flatten
          ↔ i < ([0, 0, 0, 1, 1] : List ℕ).length)
      ∧ (∀ i, i < ([0, 0, 0, 1, 1] : List ℕ).length →
          ([[0, 2, 3], [1, 4]] : List (List ℕ)).countP (fun b => i ∈ b) = 1)) :=
  ⟨⟨by decide, by decide⟩,
    skfold_partition_disjoint_exhaustive 428 2 1 [0, 0, 0, 1, 1] (by decide)
      [[0, 2, 3], [1, 4]] (by decide)⟩

/-- Witness for the amended C3 theorem at two equal-size concrete batches. -/
theorem avg_cost_is_unweighted_mean_witness :
    (([[0, 1], [2, 3]] : List (List ℕ)).length = 2
      ∧ 0 < 2
      ∧ (∀ b ∈ ([[0, 1], [2, 3]] : List (List ℕ)), b.length = 2))
    ∧ ((runBatches tsSize 2 () [[0, 1], [2, 3]]).2.1
          = (runBatches tsSize 2 () [[0, 1], [2, 3]]).2.2.sum / ((2 : ℕ) : ℚ)
      ∧ (runBatches tsSize 2 () [[0, 1], [2, 3]]).2.1
          = exampleWeightedMeanLoss [[0, 1], [2, 3]]
              (runBatches tsSize 2 () [[0, 1], [2, 3]]).2.2) :=
  ⟨⟨by decide, by decide, by decide⟩,
    avg_cost_is_unweighted_mean tsSize 2 2 () [[0, 1], [2, 3]]
      (by decide) (by decide) (by decide)⟩

/-- Witness for the amended C2 theorem at a concrete three-epoch run. -/
theorem epoch_partitions_replay_witness :
    ([[0, 2, 3], [1, 4]] ∈ epochPartitions 428 2 3 [0, 0, 0, 1, 1]
      ∧ [[0, 2, 3], [1, 4]] ∈ epochPartitions 428 2 3 [0, 0, 0, 1, 1])
    ∧ ([[0, 2, 3], [1, 4]] : List (List ℕ)) = [[0, 2, 3], [1, 4]] :=
  ⟨⟨by decide, by decide⟩,
    epoch_partitions_replay 428 2 3 [0, 0, 0, 1, 1] _ _ (by decide) (by decide)⟩

/-- Witness for the C7 theorem: two identically configured runs. -/
theorem partitions_deterministic_witness :
    ((428 : ℕ) = 428 ∧ (2 : ℕ) = 2 ∧ (3 : ℕ) = 3
      ∧ ([0, 0, 1, 1] : List ℕ) = [0, 0, 1, 1])
    ∧ epochPartitions 428 2 3 [0, 0, 1, 1] = epochPartitions 428 2 3 [0, 0, 1, 1] :=
  ⟨⟨rfl, rfl, rfl, rfl⟩,
    partitions_deterministic 428 428 2 2 3 3 [0, 0, 1, 1] [0, 0, 1, 1]
      rfl rfl rfl rfl⟩

/-- Witness for the C6 theorem: 10 samples, two classes of 5, target batch
size 5 (so 2 batches), 3 epochs: 6 train steps. -/
theorem train_step_count_witness :
    (2 ≤ totalBatch ([0, 0, 0, 0, 0, 1, 1, 1, 1, 1] : List ℕ).length 5
      ∧ totalBatch ([0, 0, 0, 0, 0, 1, 1, 1, 1, 1] : List ℕ).length 5
          ≤ minClassCount [0, 0, 0, 0, 0, 1, 1, 1, 1, 1])
    ∧ (runEpochs tsSize 428
          (totalBatch ([0, 0, 0, 0, 0, 1, 1, 1, 1, 1] : List ℕ).length 5)
          [0, 0, 0, 0, 0, 1, 1, 1, 1, 1] () 3).2
        = 3 * totalBatch ([0, 0, 0, 0, 0, 1, 1, 1, 1, 1] : List ℕ).length 5 :=
  ⟨⟨by decide, by decide⟩,
    train_step_count tsSize 428 5 3 [0, 0, 0, 0, 0, 1, 1, 1, 1, 1] ()
      (by decide) (by decide)⟩

/-- Witness for the amended C4 theorem at interval 5, epoch count 11,
epoch 10: the final epoch is reported twice. -/
theorem report_cadence_witness :
    (0 < 5 ∧ 10 < 11)
    ∧ reportCount 11 5 10
        = (if 10 % 5 = 0 then 1 else 0) + (if 10 = 11 - 1 then 1 else 0) :=
  ⟨⟨by decide, by decide⟩, report_cadence 11 5 10 (by decide) (by decide)⟩

/-- Witness for the C8 theorem at a concrete trace: the training-set accuracy
evaluation of a run over 4 samples with 2 batches. -/
theorem eval_forward_pass_only_witness :
    (SessOp.evalAccr true 1 ∈ trainerOps 428 2 0 1 [0, 0, 1, 1]
      ∧ (SessOp.evalAccr true 1).isEval = true)
    ∧ ((SessOp.evalAccr true 1).keep = 1
      ∧ ∀ (ts : Params → List ℕ → ℚ → Params × ℚ)
          (xsT ysT xsV ysV : List (List ℚ)) (p : Params),
          (applyOp ts xsT ysT xsV ysV p (SessOp.evalAccr true 1)).1 = p) := by
  have hsk : skSplit 428 [0, 0, 1, 1] 2 = .ok [[1, 2], [0, 3]] := by rfl
  have hop : SessOp.evalAccr true 1 ∈ trainerOps 428 2 0 1 [0, 0, 1, 1] := by
    rw [trainerOps, hsk]
    simp
  exact ⟨⟨hop, rfl⟩, eval_forward_pass_only 428 2 0 1 [0, 0, 1, 1] _ hop rfl⟩

/-- Witness for the C9 theorem at label 7. -/
theorem one_hot_round_trip_witness :
    (7 < 10)
    ∧ ((lbTransform (List.range 10) 7).length = 10
      ∧ (∀ v ∈ lbTransform (List.range 10) 7, v = 0 ∨ v = 1)
      ∧ (lbTransform (List.range 10) 7).count 1 = 1
      ∧ argmaxIdx (lbTransform (List.range 10) 7) = 7) :=
  ⟨by decide, one_hot_round_trip 7 (by decide)⟩

/-- Witness for the C10 theorem: a zero entry of a sample row stays zero
under the scaling fitted on a concrete matrix. -/
theorem scaling_preserves_zeros_witness :
    ([(0 : ℚ), 5] : List ℚ).getD 0 0 = 0
    ∧ (maxAbsTransform [[2, 0], [4, 6]] [(0 : ℚ), 5]).getD 0 0 = 0 :=
  ⟨rfl, scaling_preserves_zeros [[2, 0], [4, 6]] [(0 : ℚ), 5] 0 rfl⟩



